import Mathlib

/-!
Verification of the talos agent-execution subsystem: a shallow embedding of
the ACP protocol client (pending-request correlation, timeouts), the
TaskExecutor (mode selection, fallback, permission policy, batch close
handling) and the CopilotAgent adapter, with theorems settling the frozen
claims about the natural-language specification.
-/

namespace Talos

/-- Tests whether pat is a prefix of l, character by character. -/
def hasPrefixChars : List Char → List Char → Bool
  | _, [] => true
  | [], _ :: _ => false
  | a :: as, b :: bs => b == a && hasPrefixChars as bs

/-- Tests whether pat occurs as a contiguous run inside l. -/
def containsChars (l pat : List Char) : Bool :=
  match l with
  | [] => hasPrefixChars [] pat
  | c :: rest => hasPrefixChars (c :: rest) pat || containsChars rest pat

/-- JS "s.includes(pat)": substring containment test. -/
def jsIncludes (s pat : String) : Bool :=
  containsChars s.toList pat.toList

/-- JS "x || d" on an optional string, where the empty string is falsy. -/
def jsOrString (x : Option String) (d : String) : String :=
  match x with
  | none => d
  | some s => if s = "" then d else s

/-- Outcome of a permission decision, as produced by the permission handlers. -/
inductive Outcome where
  | approved
  | cancelled
deriving DecidableEq, Repr

/-- The permissions section of the configuration object. -/
structure Permissions where
  allowAllTools : Bool := false
  allowTools : List String := []
  denyTools : List String := []
  allowAllPaths : Bool := false
  allowAllUrls : Bool := false
  allowUrls : List String := []
deriving DecidableEq, Repr

/-- JS "params.tool || 'unknown'" (tool extraction at the top of the handler). -/
def extractTool (tool : Option String) : String :=
  jsOrString tool "unknown"

/-- The permission handler installed by TaskExecutor._executeACP
(part_004 lines 348-386): allow-all, then substring match against the
configured allow list, then against the deny list, then the learned
auto-approval source, then the caller-supplied interactive handler, else
cancelled.  The second component records whether the interactive handler
was invoked. -/
def permissionDecision (perms : Permissions)
    (memoryAutoApprove : Option (String → Bool))
    (handler : Option (String → Outcome)) (tool : String) :
    Outcome × Bool :=
  if perms.allowAllTools then (Outcome.approved, false)
  else if perms.allowTools.any (fun t => jsIncludes tool t) then (Outcome.approved, false)
  else if perms.denyTools.any (fun t => jsIncludes tool t) then (Outcome.cancelled, false)
  else if (match memoryAutoApprove with | some f => f tool | none => false) then
    (Outcome.approved, false)
  else
    match handler with
    | some h => (h tool, true)
    | none => (Outcome.cancelled, false)

/-- Terminal record of one execution attempt (the per-task result object). -/
structure ExecutionResult where
  exitCode : Int
  output : String
  error : Option String := none
  durationMs : Nat := 0
  mode : Option String := none
deriving DecidableEq, Repr

/-- Message of the rejection raised by the batch close handler on a
non-zero exit code. -/
def exitMessage (code : Int) : String :=
  "Process exited with code " ++ toString code

/-- The close handler of TaskExecutor._executePrompt (part_004 lines
491-508): it always stores a result record holding the exit code and the
accumulated output on the task, then resolves when the code is 0 and
rejects otherwise. The second component is the settlement of the promise
(ok on resolve, the error message on reject). -/
def promptClose (accumulated : String) (durationMs : Nat) (code : Int) :
    ExecutionResult × Except String Unit :=
  let result : ExecutionResult :=
    { exitCode := code, output := accumulated, durationMs := durationMs,
      mode := some "prompt" }
  if code = 0 then (result, Except.ok ())
  else (result, Except.error (exitMessage code))

/-- The close handler of CopilotAgent._executePrompt (part_006 lines
237-254): same shape, with the error message also attached to the result
record before rejecting. -/
def agentPromptClose (accumulated : String) (durationMs : Nat) (code : Int) :
    ExecutionResult × Except String Unit :=
  let result : ExecutionResult :=
    { exitCode := code, output := accumulated, durationMs := durationMs,
      mode := some "prompt" }
  if code = 0 then (result, Except.ok ())
  else ({ result with error := some (exitMessage code) },
        Except.error (exitMessage code))

/-! ### ACP protocol client: pending-request correlation

State and step relation embedding ACPClient._request (part_004 lines 84-98)
and ACPClient._handleMessage (lines 103-128).  requestId is the strictly
increasing id counter; pending is the pendingRequests map as an association
list from id to an opaque caller token; timers records which request ids
still have a scheduled timeout timer (the source never calls clearTimeout,
so only the firing of a timer removes it). -/

/-- The pendingRequests map: association list from request id to the token
of the caller awaiting that id. -/
abbrev Pending := List (Nat × Nat)

/-- Map.get-style lookup on the pending map. -/
def lookupPending (id : Nat) (p : Pending) : Option Nat :=
  match p.find? (fun e => e.1 == id) with
  | some e => some e.2
  | none => none

/-- Map.delete on the pending map. -/
def removePending (id : Nat) (p : Pending) : Pending :=
  p.filter (fun e => e.1 != id)

/-- The ids currently in the pending map. -/
def pendingKeys (p : Pending) : List Nat :=
  p.map Prod.fst

/-- ACPClient state relevant to request correlation. -/
structure ClientState where
  requestId : Nat
  pending : Pending
  timers : List Nat
deriving DecidableEq, Repr

/-- A freshly constructed ACPClient: counter 0, no pending entries, no timers. -/
def initState : ClientState :=
  { requestId := 0, pending := [], timers := [] }

/-- External events driving the client: a caller issuing a request, an
inbound response line for some id (isError when the response carries an
error member), and the expiry of the timeout timer for some id. -/
inductive Event where
  | request (caller : Nat)
  | response (id : Nat) (isError : Bool)
  | timerFire (id : Nat)
deriving DecidableEq, Repr

/-- Observable effect of one step: a request was issued and inserted
(accepted), a pending caller was resolved or rejected by a matching
response, a pending caller was rejected by timeout expiry, a non-matching
response was silently discarded, or a timer fired after its request had
already settled and did nothing. -/
inductive Delivery where
  | accepted (id caller : Nat)
  | resolvedD (id caller : Nat)
  | rejectedD (id caller : Nat)
  | timedOutD (id caller : Nat)
  | discardedD
  | timerNoopD
deriving DecidableEq, Repr

/-- One step of the client.  request: id := ++requestId, insert into the
map, schedule a timer (no handle is kept).  response: the guard
"message.id && pendingRequests.has(message.id)" (id 0 is falsy in JS);
on match the entry is deleted and the caller resolved or rejected; the
timer is NOT cleared; otherwise the message is dropped.  timerFire: the
guard "if (pendingRequests.has(id))"; on match delete and reject, else
no-op; either way that timer is now spent. -/
def step (s : ClientState) : Event → ClientState × Delivery
  | Event.request c =>
    let id := s.requestId + 1
    ({ requestId := id, pending := (id, c) :: s.pending, timers := id :: s.timers },
     Delivery.accepted id c)
  | Event.response id isErr =>
    if id ≠ 0 then
      match lookupPending id s.pending with
      | some c =>
        ({ s with pending := removePending id s.pending },
         if isErr then Delivery.rejectedD id c else Delivery.resolvedD id c)
      | none => (s, Delivery.discardedD)
    else (s, Delivery.discardedD)
  | Event.timerFire id =>
    match lookupPending id s.pending with
    | some c =>
      ({ s with pending := removePending id s.pending, timers := s.timers.erase id },
       Delivery.timedOutD id c)
    | none =>
      ({ s with timers := s.timers.erase id }, Delivery.timerNoopD)

/-- Run a whole event trace, collecting the deliveries in order. -/
def run (s : ClientState) : List Event → ClientState × List Delivery
  | [] => (s, [])
  | e :: es =>
    let sd := step s e
    let rest := run sd.1 es
    (rest.1, sd.2 :: rest.2)

/-- Does this delivery remove id from the pending map (settle its caller)? -/
def removesId (id : Nat) : Delivery → Bool
  | Delivery.resolvedD i _ => i == id
  | Delivery.rejectedD i _ => i == id
  | Delivery.timedOutD i _ => i == id
  | _ => false

/-- Counting a delivery appended on the right when the predicate rejects it. -/
lemma countP_append_no {p : Delivery → Bool} {ds : List Delivery} {d : Delivery}
    (h : p d = false) : (ds ++ [d]).countP p = ds.countP p := by
  simp [List.countP_append, List.countP_cons, h]

/-- Counting a delivery appended on the right when the predicate accepts it. -/
lemma countP_append_yes {p : Delivery → Bool} {ds : List Delivery} {d : Delivery}
    (h : p d = true) : (ds ++ [d]).countP p = ds.countP p + 1 := by
  simp [List.countP_append, List.countP_cons, h]

/-- A successful map lookup returns an entry of the map. -/
lemma lookupPending_some {id c : Nat} {p : Pending}
    (h : lookupPending id p = some c) : (id, c) ∈ p := by
  unfold lookupPending at h
  cases hf : p.find? (fun e => e.1 == id) with
  | none => rw [hf] at h; cases h
  | some e =>
    rw [hf] at h
    have he : e ∈ p := List.mem_of_find?_eq_some hf
    have hp := List.find?_some hf
    have h1 : e.1 = id := by simpa using hp
    have h2 : e.2 = c := by cases h; rfl
    have : (id, c) = e := by
      cases e
      simp only at h1 h2
      rw [h1, h2]
    rw [this]
    exact he

/-- A failed map lookup means the id is not among the keys. -/
lemma lookupPending_none {id : Nat} {p : Pending}
    (h : lookupPending id p = none) : id ∉ pendingKeys p := by
  unfold lookupPending at h
  cases hf : p.find? (fun e => e.1 == id) with
  | some e => rw [hf] at h; cases h
  | none =>
    intro hmem
    rw [List.find?_eq_none] at hf
    simp only [pendingKeys, List.mem_map] at hmem
    obtain ⟨e, hep, heq⟩ := hmem
    exact hf e hep (by simpa using heq)

/-- Membership in the map after a deletion. -/
lemma mem_removePending {id : Nat} {e : Nat × Nat} {p : Pending} :
    e ∈ removePending id p ↔ e ∈ p ∧ e.1 ≠ id := by
  simp [removePending, List.mem_filter, bne_iff_ne]

/-- Keys of the map after a deletion. -/
lemma keys_removePending {id id' : Nat} {p : Pending} :
    id' ∈ pendingKeys (removePending id p) ↔ id' ∈ pendingKeys p ∧ id' ≠ id := by
  simp only [pendingKeys, removePending, List.mem_map, List.mem_filter, bne_iff_ne]
  constructor
  · rintro ⟨e, ⟨hep, hne⟩, heq⟩
    exact ⟨⟨e, hep, heq⟩, heq ▸ hne⟩
  · rintro ⟨⟨e, hep, heq⟩, hne⟩
    exact ⟨e, ⟨hep, heq ▸ hne⟩, heq⟩

/-- Deleting an id removes it from the keys. -/
lemma not_mem_keys_removePending {id : Nat} {p : Pending} :
    id ∉ pendingKeys (removePending id p) := by
  intro hmem
  exact (keys_removePending.mp hmem).2 rfl

/-- Deletion preserves distinctness of the keys. -/
lemma nodup_keys_removePending {id : Nat} {p : Pending}
    (h : (pendingKeys p).Nodup) : (pendingKeys (removePending id p)).Nodup :=
  List.Nodup.sublist ((List.filter_sublist p).map Prod.fst) h

/-- Invariant relating a reachable client state to the deliveries emitted
so far: pending ids are positive, bounded by the id counter and distinct;
every pending entry was accepted with exactly that caller; accepted ids
are bounded and have a unique caller; every id is settled at most once;
an id still pending, or never issued, has not been settled; an accepted
id that is no longer pending has been settled exactly once; and every
settlement delivery matches an acceptance with the same caller. -/
structure Inv (ds : List Delivery) (s : ClientState) : Prop where
  keyPos : ∀ p ∈ s.pending, 1 ≤ p.1
  keyLe : ∀ p ∈ s.pending, p.1 ≤ s.requestId
  keyNodup : (pendingKeys s.pending).Nodup
  pendingAccepted : ∀ p ∈ s.pending, Delivery.accepted p.1 p.2 ∈ ds
  acceptedLe : ∀ id c, Delivery.accepted id c ∈ ds → id ≤ s.requestId
  acceptedUnique : ∀ id c c', Delivery.accepted id c ∈ ds →
    Delivery.accepted id c' ∈ ds → c = c'
  removesLeOne : ∀ id, ds.countP (removesId id) ≤ 1
  pendingNotRemoved : ∀ id, id ∈ pendingKeys s.pending →
    ds.countP (removesId id) = 0
  settledRemoved : ∀ id c, Delivery.accepted id c ∈ ds →
    id ∉ pendingKeys s.pending → ds.countP (removesId id) = 1
  freshNotRemoved : ∀ id, s.requestId < id → ds.countP (removesId id) = 0
  removedAccepted : ∀ id c,
    (Delivery.resolvedD id c ∈ ds ∨ Delivery.rejectedD id c ∈ ds ∨
     Delivery.timedOutD id c ∈ ds) → Delivery.accepted id c ∈ ds

/-- The invariant holds of a fresh client with no deliveries. -/
lemma inv_init : Inv [] initState := by
  constructor <;> simp [initState, pendingKeys]

/-- Issuing a request preserves the invariant. -/
lemma request_inv {ds : List Delivery} {s : ClientState} (h : Inv ds s) (c : Nat) :
    Inv (ds ++ [Delivery.accepted (s.requestId + 1) c])
      { requestId := s.requestId + 1,
        pending := (s.requestId + 1, c) :: s.pending,
        timers := (s.requestId + 1) :: s.timers } := by
  have hfresh : s.requestId + 1 ∉ pendingKeys s.pending := by
    intro hmem
    simp only [pendingKeys, List.mem_map] at hmem
    obtain ⟨e, hep, heq⟩ := hmem
    have := h.keyLe e hep
    omega
  have hnotrem : ∀ id : Nat, removesId id (Delivery.accepted (s.requestId + 1) c) = false := by
    intro id; rfl
  constructor
  case keyPos =>
    intro p hp
    rcases List.mem_cons.mp hp with rfl | hp
    · exact Nat.succ_le_succ (Nat.zero_le _)
    · exact h.keyPos p hp
  case keyLe =>
    intro p hp
    rcases List.mem_cons.mp hp with rfl | hp
    · exact Nat.le_refl _
    · exact Nat.le_succ_of_le (h.keyLe p hp)
  case keyNodup =>
    simp only [pendingKeys, List.map_cons]
    exact List.Nodup.cons hfresh h.keyNodup
  case pendingAccepted =>
    intro p hp
    rcases List.mem_cons.mp hp with rfl | hp
    · simp
    · exact List.mem_append_left _ (h.pendingAccepted p hp)
  case acceptedLe =>
    intro id c' hmem
    rcases List.mem_append.mp hmem with hmem | hmem
    · exact Nat.le_succ_of_le (h.acceptedLe id c' hmem)
    · cases List.mem_singleton.mp hmem
      exact Nat.le_refl _
  case acceptedUnique =>
    intro id c₁ c₂ h₁ h₂
    rcases List.mem_append.mp h₁ with h₁ | h₁ <;>
      rcases List.mem_append.mp h₂ with h₂ | h₂
    · exact h.acceptedUnique id c₁ c₂ h₁ h₂
    · cases List.mem_singleton.mp h₂
      exact absurd (h.acceptedLe _ _ h₁) (by omega)
    · cases List.mem_singleton.mp h₁
      exact absurd (h.acceptedLe _ _ h₂) (by omega)
    · cases List.mem_singleton.mp h₁
      cases List.mem_singleton.mp h₂
      rfl
  case removesLeOne =>
    intro id
    rw [countP_append_no (hnotrem id)]
    exact h.removesLeOne id
  case pendingNotRemoved =>
    intro id hid
    rw [countP_append_no (hnotrem id)]
    simp only [pendingKeys, List.map_cons, List.mem_cons] at hid
    rcases hid with rfl | hid
    · exact h.freshNotRemoved _ (Nat.lt_succ_self _)
    · exact h.pendingNotRemoved id hid
  case settledRemoved =>
    intro id c' hmem hnp
    rw [countP_append_no (hnotrem id)]
    simp only [pendingKeys, List.map_cons, List.mem_cons] at hnp
    push_neg at hnp
    rcases List.mem_append.mp hmem with hmem | hmem
    · exact h.settledRemoved id c' hmem hnp.2
    · cases List.mem_singleton.mp hmem
      exact absurd rfl hnp.1
  case freshNotRemoved =>
    intro id hid
    rw [countP_append_no (hnotrem id)]
    exact h.freshNotRemoved id (Nat.lt_of_succ_lt hid)
  case removedAccepted =>
    intro id c' hmem
    have : Delivery.resolvedD id c' ∈ ds ∨ Delivery.rejectedD id c' ∈ ds ∨
        Delivery.timedOutD id c' ∈ ds := by
      rcases hmem with hm | hm | hm <;>
        rcases List.mem_append.mp hm with hm | hm <;>
          first
            | exact Or.inl hm
            | exact Or.inr (Or.inl hm)
            | exact Or.inr (Or.inr hm)
            | cases List.mem_singleton.mp hm
    exact List.mem_append_left _ (h.removedAccepted id c' this)

/-- Settling a pending request (by matching response or by timeout expiry)
preserves the invariant; the timer list may change arbitrarily since the
invariant does not constrain it. -/
lemma settle_inv {ds : List Delivery} {s : ClientState} {id c : Nat} {d : Delivery}
    (h : Inv ds s) (hl : lookupPending id s.pending = some c)
    (hd : d = Delivery.resolvedD id c ∨ d = Delivery.rejectedD id c ∨
      d = Delivery.timedOutD id c) (t' : List Nat) :
    Inv (ds ++ [d]) { requestId := s.requestId,
                      pending := removePending id s.pending, timers := t' } := by
  have hmem : (id, c) ∈ s.pending := lookupPending_some hl
  have hkey : id ∈ pendingKeys s.pending := by
    simp only [pendingKeys, List.mem_map]
    exact ⟨(id, c), hmem, rfl⟩
  have hidle : id ≤ s.requestId := h.keyLe _ hmem
  have hacc : Delivery.accepted id c ∈ ds := h.pendingAccepted _ hmem
  have hrem : ∀ id' : Nat, removesId id' d = (id == id') := by
    intro id'
    rcases hd with rfl | rfl | rfl <;> rfl
  have hnotacc : ∀ i c', d ≠ Delivery.accepted i c' := by
    intro i c'
    rcases hd with rfl | rfl | rfl <;> intro hne <;> cases hne
  constructor
  case keyPos =>
    intro p hp
    exact h.keyPos p (mem_removePending.mp hp).1
  case keyLe =>
    intro p hp
    exact h.keyLe p (mem_removePending.mp hp).1
  case keyNodup => exact nodup_keys_removePending h.keyNodup
  case pendingAccepted =>
    intro p hp
    exact List.mem_append_left _ (h.pendingAccepted p (mem_removePending.mp hp).1)
  case acceptedLe =>
    intro i c' hm
    rcases List.mem_append.mp hm with hm | hm
    · exact h.acceptedLe i c' hm
    · exact absurd (List.mem_singleton.mp hm).symm (hnotacc i c')
  case acceptedUnique =>
    intro i c₁ c₂ h₁ h₂
    rcases List.mem_append.mp h₁ with h₁ | h₁
    · rcases List.mem_append.mp h₂ with h₂ | h₂
      · exact h.acceptedUnique i c₁ c₂ h₁ h₂
      · exact absurd (List.mem_singleton.mp h₂).symm (hnotacc i c₂)
    · exact absurd (List.mem_singleton.mp h₁).symm (hnotacc i c₁)
  case removesLeOne =>
    intro i
    by_cases hii : id = i
    · subst hii
      rw [countP_append_yes (by rw [hrem]; simp)]
      rw [h.pendingNotRemoved id hkey]
    · rw [countP_append_no (by rw [hrem]; simp [hii])]
      exact h.removesLeOne i
  case pendingNotRemoved =>
    intro i hi
    obtain ⟨hiP, hine⟩ := keys_removePending.mp hi
    rw [countP_append_no (by rw [hrem]; exact beq_eq_false_iff_ne.mpr (Ne.symm hine))]
    exact h.pendingNotRemoved i hiP
  case settledRemoved =>
    intro i c' hm hnp
    have hmds : Delivery.accepted i c' ∈ ds := by
      rcases List.mem_append.mp hm with hm | hm
      · exact hm
      · exact absurd (List.mem_singleton.mp hm).symm (hnotacc i c')
    by_cases hii : id = i
    · subst hii
      rw [countP_append_yes (by rw [hrem]; simp)]
      rw [h.pendingNotRemoved id hkey]
    · rw [countP_append_no (by rw [hrem]; simp [hii])]
      have : i ∉ pendingKeys s.pending := by
        intro hiP
        exact hnp (keys_removePending.mpr ⟨hiP, fun hc => hii hc.symm⟩)
      exact h.settledRemoved i c' hmds this
  case freshNotRemoved =>
    intro i hi
    have hi' : s.requestId < i := hi
    have hne : id ≠ i := by omega
    rw [countP_append_no (by rw [hrem]; exact beq_eq_false_iff_ne.mpr hne)]
    exact h.freshNotRemoved i hi'
  case removedAccepted =>
    intro i c' hm
    have : (Delivery.resolvedD i c' ∈ ds ∨ Delivery.rejectedD i c' ∈ ds ∨
        Delivery.timedOutD i c' ∈ ds) ∨ (i = id ∧ c' = c) := by
      rcases hm with hm | hm | hm <;> rcases List.mem_append.mp hm with hm | hm
      · exact Or.inl (Or.inl hm)
      · rcases hd with rfl | rfl | rfl <;> cases List.mem_singleton.mp hm <;>
          exact Or.inr ⟨rfl, rfl⟩
      · exact Or.inl (Or.inr (Or.inl hm))
      · rcases hd with rfl | rfl | rfl <;> cases List.mem_singleton.mp hm <;>
          exact Or.inr ⟨rfl, rfl⟩
      · exact Or.inl (Or.inr (Or.inr hm))
      · rcases hd with rfl | rfl | rfl <;> cases List.mem_singleton.mp hm <;>
          exact Or.inr ⟨rfl, rfl⟩
    rcases this with hds | ⟨rfl, rfl⟩
    · exact List.mem_append_left _ (h.removedAccepted i c' hds)
    · exact List.mem_append_left _ hacc

/-- Steps that touch neither the map nor an entry (a discarded late
response, a timer firing for an already-settled id) preserve the
invariant. -/
lemma noop_inv {ds : List Delivery} {s : ClientState} {d : Delivery}
    (h : Inv ds s)
    (hd : d = Delivery.discardedD ∨ d = Delivery.timerNoopD) (t' : List Nat) :
    Inv (ds ++ [d]) { requestId := s.requestId, pending := s.pending, timers := t' } := by
  have hrem : ∀ id' : Nat, removesId id' d = false := by
    intro id'
    rcases hd with rfl | rfl <;> rfl
  have hnotacc : ∀ i c', d ≠ Delivery.accepted i c' := by
    intro i c'
    rcases hd with rfl | rfl <;> intro hne <;> cases hne
  have hnotrem : ∀ i c', d ≠ Delivery.resolvedD i c' ∧ d ≠ Delivery.rejectedD i c' ∧
      d ≠ Delivery.timedOutD i c' := by
    intro i c'
    rcases hd with rfl | rfl <;>
      exact ⟨(fun hne => nomatch hne), (fun hne => nomatch hne), (fun hne => nomatch hne)⟩
  constructor
  case keyPos => exact h.keyPos
  case keyLe => exact h.keyLe
  case keyNodup => exact h.keyNodup
  case pendingAccepted =>
    intro p hp
    exact List.mem_append_left _ (h.pendingAccepted p hp)
  case acceptedLe =>
    intro i c' hm
    rcases List.mem_append.mp hm with hm | hm
    · exact h.acceptedLe i c' hm
    · exact absurd (List.mem_singleton.mp hm).symm (hnotacc i c')
  case acceptedUnique =>
    intro i c₁ c₂ h₁ h₂
    rcases List.mem_append.mp h₁ with h₁ | h₁
    · rcases List.mem_append.mp h₂ with h₂ | h₂
      · exact h.acceptedUnique i c₁ c₂ h₁ h₂
      · exact absurd (List.mem_singleton.mp h₂).symm (hnotacc i c₂)
    · exact absurd (List.mem_singleton.mp h₁).symm (hnotacc i c₁)
  case removesLeOne =>
    intro i
    rw [countP_append_no (hrem i)]
    exact h.removesLeOne i
  case pendingNotRemoved =>
    intro i hi
    rw [countP_append_no (hrem i)]
    exact h.pendingNotRemoved i hi
  case settledRemoved =>
    intro i c' hm hnp
    have hmds : Delivery.accepted i c' ∈ ds := by
      rcases List.mem_append.mp hm with hm | hm
      · exact hm
      · exact absurd (List.mem_singleton.mp hm).symm (hnotacc i c')
    rw [countP_append_no (hrem i)]
    exact h.settledRemoved i c' hmds hnp
  case freshNotRemoved =>
    intro i hi
    rw [countP_append_no (hrem i)]
    exact h.freshNotRemoved i hi
  case removedAccepted =>
    intro i c' hm
    have hds : Delivery.resolvedD i c' ∈ ds ∨ Delivery.rejectedD i c' ∈ ds ∨
        Delivery.timedOutD i c' ∈ ds := by
      rcases hm with hm | hm | hm <;> rcases List.mem_append.mp hm with hm | hm
      · exact Or.inl hm
      · exact absurd (List.mem_singleton.mp hm).symm (hnotrem i c').1
      · exact Or.inr (Or.inl hm)
      · exact absurd (List.mem_singleton.mp hm).symm (hnotrem i c').2.1
      · exact Or.inr (Or.inr hm)
      · exact absurd (List.mem_singleton.mp hm).symm (hnotrem i c').2.2
    exact List.mem_append_left _ (h.removedAccepted i c' hds)

/-- One step preserves the invariant, appending its delivery. -/
lemma step_inv {ds : List Delivery} {s : ClientState} (h : Inv ds s) (e : Event) :
    Inv (ds ++ [(step s e).2]) (step s e).1 := by
  cases e with
  | request c =>
    simpa [step] using request_inv h c
  | response id isErr =>
    by_cases h0 : id ≠ 0
    · cases hl : lookupPending id s.pending with
      | some c =>
        cases isErr with
        | false =>
          simpa [step, h0, hl] using
            settle_inv h hl (Or.inl rfl) s.timers
        | true =>
          simpa [step, h0, hl] using
            settle_inv h hl (Or.inr (Or.inl rfl)) s.timers
      | none =>
        simpa [step, h0, hl] using noop_inv h (Or.inl rfl) s.timers
    · simpa [step, h0] using noop_inv h (Or.inl rfl) s.timers
  | timerFire id =>
    cases hl : lookupPending id s.pending with
    | some c =>
      simpa [step, hl] using
        settle_inv h hl (Or.inr (Or.inr rfl)) (s.timers.erase id)
    | none =>
      simpa [step, hl] using noop_inv h (Or.inr rfl) (s.timers.erase id)

/-- Running a trace preserves the invariant, appending all deliveries. -/
lemma run_inv {ds : List Delivery} {s : ClientState} (h : Inv ds s) (tr : List Event) :
    Inv (ds ++ (run s tr).2) (run s tr).1 := by
  induction tr generalizing ds s with
  | nil => simpa [run] using h
  | cons e es ih =>
    have h' := step_inv h e
    have := ih h'
    simpa [run, List.append_assoc] using this

/-- The invariant holds after any trace from a fresh client. -/
lemma inv_run (tr : List Event) : Inv (run initState tr).2 (run initState tr).1 := by
  simpa using run_inv inv_init tr

/-! ### Timers: per-request timeout and permission wait -/

/-- The fixed per-request timeout in milliseconds passed to setTimeout in
ACPClient._request (part_004 line 96). -/
def REQUEST_TIMEOUT_MS : Nat := 60000

/-- A single outbound request together with the instant at which its
timeout timer is scheduled to fire. -/
structure TimedRequest where
  issuedAt : Nat
  timerAt : Nat
deriving DecidableEq, Repr

/-- Issuing a request at time t0 schedules its timeout timer for
t0 + 60000 ms (ACPClient._request). -/
def issueRequest (t0 : Nat) : TimedRequest :=
  { issuedAt := t0, timerAt := t0 + REQUEST_TIMEOUT_MS }

/-- With no response arriving, the request is still pending exactly at the
instants strictly before its timer fires. -/
def pendingAt (r : TimedRequest) (t : Nat) : Bool :=
  decide (t < r.timerAt)

/-- The bounded interactive permission wait in milliseconds in the server
permission handler (src/server/index.js line 367). -/
def PERMISSION_WAIT_MS : Nat := 30000

/-- The server permission handler (src/server/index.js lines 355-375):
after broadcasting the request it races the client response against a
30000 ms timer. A response arriving strictly before the timer resolves
the promise with the handler decision (approved exactly when
response.approved) and clears the timer; with no response, or one
arriving once the timer has fired, the configured default applies:
approved when allowAllTools is set, cancelled otherwise, and the timer
was not cleared. Returns the decision, whether clearTimeout ran before
the timer fired, and the settlement instant relative to the broadcast. -/
def serverPermissionWait (allowAllTools : Bool) (response : Option (Nat × Bool)) :
    Outcome × Bool × Nat :=
  let defaultOutcome := if allowAllTools then Outcome.approved else Outcome.cancelled
  match response with
  | some (t, approved) =>
    if t < PERMISSION_WAIT_MS then
      ((if approved then Outcome.approved else Outcome.cancelled), true, t)
    else (defaultOutcome, false, PERMISSION_WAIT_MS)
  | none => (defaultOutcome, false, PERMISSION_WAIT_MS)

/-! ### stop() on the client, the executor and the agent adapter -/

/-- ACPClient fields touched by stop (part_004 lines 236-249). -/
structure ACPClientShutdown where
  hasProcess : Bool
  sessionId : Option String
deriving DecidableEq, Repr

/-- Externally visible actions of one ACPClient.stop call.  forceKill is
the forced termination (SIGKILL) the specification describes after the
grace period; it is part of the vocabulary so that its absence from the
actions the source performs can be stated. -/
inductive StopAction where
  | stdinEnd
  | sigterm
  | awaitExitBounded (graceMs : Nat)
  | forceKill
deriving DecidableEq, Repr

/-- ACPClient.stop (part_004 lines 236-249): when a process exists, close
its stdin, send SIGTERM, await exit bounded by a 2000 ms grace timer,
then clear the process and session fields — it never sends any further
kill after the grace timer elapses; when no process exists, do nothing
at all. -/
def acpStop (s : ACPClientShutdown) : ACPClientShutdown × List StopAction :=
  if s.hasProcess then
    ({ hasProcess := false, sessionId := none },
     [StopAction.stdinEnd, StopAction.sigterm, StopAction.awaitExitBounded 2000])
  else (s, [])

/-- TaskExecutor fields touched by stop (part_004 lines 563-585);
currentTask holds the accumulated output of the active task when one is
running. -/
structure ExecutorShutdown where
  hasAcpClient : Bool
  hasProcess : Bool
  currentTask : Option String
deriving DecidableEq, Repr

/-- Terminal events TaskExecutor.stop may emit. -/
inductive ExecutorStopEvent where
  | cancelled (result : ExecutionResult)
deriving DecidableEq, Repr

/-- TaskExecutor.stop (part_004 lines 563-585): stops the ACP client and
kills the prompt-mode process when present, then, when a task is current,
synthesizes a result with exit code -1, the designated cancellation error
and the accumulated output, emits one cancelled event and clears the
current task; with nothing started every branch is skipped. -/
def executorStop (durationMs : Nat) (s : ExecutorShutdown) :
    ExecutorShutdown × List ExecutorStopEvent :=
  match s.currentTask with
  | some output =>
    ({ hasAcpClient := false, hasProcess := false, currentTask := none },
     [ExecutorStopEvent.cancelled
        { exitCode := -1, output := output, error := some "Cancelled by user",
          durationMs := durationMs }])
  | none =>
    ({ hasAcpClient := false, hasProcess := false, currentTask := none }, [])

/-- CopilotAgent fields touched by stop (part_006 lines 303-315). -/
structure AgentShutdown where
  hasAcpClient : Bool
  hasProcess : Bool
  running : Bool
deriving DecidableEq, Repr

/-- CopilotAgent.stop (part_006 lines 303-315): stop the owned ACP client
and process when present, clear both fields and the running flag; emits
no events. -/
def agentStop (_s : AgentShutdown) : AgentShutdown :=
  { hasAcpClient := false, hasProcess := false, running := false }

/-! ### Fallback from streaming to batch mode -/

/-- Error taxonomy layer of the specification: protocol-layer failures
(spawn, handshake, connection, timeout) versus application-level failures
(the backend reported a tool or task failure). The JS errors carry only a
message; the layer records the classification of the site that raised the
error so that claims about it can be stated. -/
inductive ErrorLayer where
  | protocolLayer
  | applicationLayer
deriving DecidableEq, Repr

/-- An execution failure: the thrown message plus its layer. -/
structure ExecError where
  message : String
  layer : ErrorLayer
deriving DecidableEq, Repr

/-- The rejection ACPClient._handleMessage raises for a server-reported
error response (part_004 line 110), message "message.error.message ||
'ACP error'": the backend reported a task-level failure, so the layer is
application-level. -/
def serverErrorReject (serverMessage : Option String) : ExecError :=
  { message := jsOrString serverMessage "ACP error",
    layer := ErrorLayer.applicationLayer }

/-- Resolved execution mode, "this.config.execution?.mode || 'acp'"
(part_004 line 293). -/
def resolvedMode (mode : Option String) : String :=
  jsOrString mode "acp"

/-- Resolved fallback toggle,
"this.config.execution?.fallbackToPrompt !== false" (part_004 line 294). -/
def resolvedFallback (fallbackToPrompt : Option Bool) : Bool :=
  fallbackToPrompt != some false

/-- The fallback decision of TaskExecutor.execute (part_004 line 306):
fallback runs exactly when the configured mode was "acp", fallback is
enabled, and the thrown message contains the substring "ACP". -/
def executorShouldFallback (mode : String) (fallback : Bool) (err : ExecError) : Bool :=
  mode == "acp" && fallback && jsIncludes err.message "ACP"

/-- The fallback decision of CopilotAgent.execute (part_006 line 97): the
error is not inspected at all. -/
def agentShouldFallback (mode : String) (fallback : Bool) (_err : ExecError) : Bool :=
  mode == "acp" && fallback

/-- Control flow of TaskExecutor.execute around fallback (part_004 lines
298-316), abstracted over the outcomes of the primary attempt and of the
batch attempt: on primary success no fallback happens; on failure one
batch attempt runs when the decision policy fires and its outcome,
success or second failure, is final; otherwise the original error is
rethrown. Returns the final outcome and how many fallback attempts ran. -/
def executeWithFallback (policy : String → Bool → ExecError → Bool)
    (mode : String) (fallback : Bool)
    (primary : Except ExecError Unit) (batch : Except ExecError Unit) :
    Except ExecError Unit × Nat :=
  match primary with
  | Except.ok _ => (Except.ok (), 0)
  | Except.error e =>
    if policy mode fallback e then
      match batch with
      | Except.ok _ => (Except.ok (), 1)
      | Except.error e2 => (Except.error e2, 1)
    else (Except.error e, 0)

/-! ### The task record and the execute flow over it -/

/-- The caller task record, with the fields the execute path reads and
writes; origPrompt models the temporary _originalPrompt property used to
restore the prompt after memory-context injection. -/
structure Task where
  prompt : String
  workingDir : Option String := none
  taskType : Option String := none
  title : Option String := none
  startedAt : Option Nat := none
  completedAt : Option Nat := none
  output : String := ""
  result : Option ExecutionResult := none
  origPrompt : Option String := none
deriving DecidableEq, Repr

/-- Task-record effects of one execution attempt (_executeACP, part_004
lines 415-446, or _executePrompt, lines 459-508): streamed chunks are
appended to task.output, completedAt is stamped, and a result record
holding the accumulated output is stored in every exit path, with exit
code 0 on success and 1 with the thrown message on failure. -/
def attemptBody (chunks : List String) (outcome : Except ExecError Unit)
    (completedAt durationMs : Nat) (mode : String) (t : Task) : Task :=
  let t1 := { t with output := t.output ++ String.join chunks }
  match outcome with
  | Except.ok _ =>
    { t1 with
        completedAt := some completedAt,
        result := some { exitCode := 0, output := t1.output,
                         durationMs := durationMs, mode := some mode } }
  | Except.error e =>
    { t1 with
        completedAt := some completedAt,
        result := some { exitCode := 1, output := t1.output, error := some e.message,
                         durationMs := durationMs, mode := some mode } }

/-- Task-record flow of TaskExecutor.execute (part_004 lines 278-337):
stamp startedAt and reset output; when a memory store is present and
builds a non-empty context string, save the original prompt in
_originalPrompt and append the context to the prompt; run the chosen
attempt and, when fallback fires, the batch attempt; in the finally
block, when a memory store is present and a result was produced, restore
the saved prompt and drop _originalPrompt before recording. -/
def executeTask (memoryContext : Option String)
    (body fallbackBody : Task → Task)
    (fallbackRuns : Bool) (startedAt : Nat) (t : Task) : Task :=
  let t1 := { t with startedAt := some startedAt, output := "" }
  let t2 :=
    match memoryContext with
    | some ctx =>
      if ctx = "" then t1
      else { t1 with origPrompt := some t1.prompt, prompt := t1.prompt ++ ctx }
    | none => t1
  let t3 := body t2
  let t4 := if fallbackRuns then fallbackBody t3 else t3
  if memoryContext.isSome && t4.result.isSome then
    match t4.origPrompt with
    | some p => { t4 with prompt := p, origPrompt := none }
    | none => t4
  else t4

/-- The configuration snapshot passed at construction. -/
structure Config where
  copilotCommand : Option String := none
  permissions : Permissions := {}
  model : Option String := none
  planMode : Bool := false
  executionMode : Option String := none
  fallbackToPrompt : Option Bool := none
deriving DecidableEq, Repr

/-- TaskExecutor._buildPromptArgs (part_004 lines 514-558), returning the
argument list together with the configuration as left behind by the call;
the source contains no assignment into the configuration object, so the
embedding returns it as received, making the read-only claim checkable. -/
def buildPromptArgs (cfg : Config) (t : Task) : List String × Config :=
  let perms := cfg.permissions
  let args1 := ["-p", t.prompt] ++
    (if perms.allowAllTools then ["--allow-all-tools"]
     else if perms.allowTools.length > 0 then
       (perms.allowTools.map (fun tool => ["--allow-tool", tool])).flatten
     else [])
  let args2 := args1 ++
    (if perms.denyTools.length > 0 then
       (perms.denyTools.map (fun tool => ["--deny-tool", tool])).flatten
     else [])
  let args3 := args2 ++ (if perms.allowAllPaths then ["--allow-all-paths"] else [])
  let args4 := args3 ++
    (if perms.allowAllUrls then ["--allow-all-urls"]
     else if perms.allowUrls.length > 0 then
       (perms.allowUrls.map (fun url => ["--allow-url", url])).flatten
     else [])
  let args5 := args4 ++
    (if jsOrString cfg.model "" = "" then [] else ["--model", jsOrString cfg.model ""])
  let args6 := args5 ++ (if cfg.planMode then ["--plan"] else [])
  (args6, cfg)

/-- The configuration of the permission-policy scenario of the claims. -/
def scenarioPerms : Permissions :=
  { allowAllTools := false, allowTools := ["shell(git)"], denyTools := ["shell(rm)"] }

/-- A configuration whose allow and deny patterns can both occur inside
one tool name. -/
def overlapPerms : Permissions :=
  { allowAllTools := false, allowTools := ["rm"], denyTools := ["rm -rf"] }

/-- TaskExecutor.execute with both attempt bodies instantiated to the
concrete task effects of _executeACP/_executePrompt. -/
def executeTaskFull (mem : Option String) (chunks chunks2 : List String)
    (oc oc2 : Except ExecError Unit) (ca ca2 dm dm2 sa : Nat)
    (mode mode2 : String) (fb : Bool) (t : Task) : Task :=
  executeTask mem (attemptBody chunks oc ca dm mode)
    (attemptBody chunks2 oc2 ca2 dm2 mode2) fb sa t

/-! ### Helper lemmas -/

/-- An attempt leaves the prompt unchanged. -/
lemma attemptBody_prompt (chunks : List String) (oc : Except ExecError Unit)
    (ca dm : Nat) (mode : String) (t : Task) :
    (attemptBody chunks oc ca dm mode t).prompt = t.prompt := by
  cases oc <;> rfl

/-- An attempt leaves the working directory unchanged. -/
lemma attemptBody_workingDir (chunks : List String) (oc : Except ExecError Unit)
    (ca dm : Nat) (mode : String) (t : Task) :
    (attemptBody chunks oc ca dm mode t).workingDir = t.workingDir := by
  cases oc <;> rfl

/-- An attempt leaves the task type unchanged. -/
lemma attemptBody_taskType (chunks : List String) (oc : Except ExecError Unit)
    (ca dm : Nat) (mode : String) (t : Task) :
    (attemptBody chunks oc ca dm mode t).taskType = t.taskType := by
  cases oc <;> rfl

/-- An attempt leaves the title unchanged. -/
lemma attemptBody_title (chunks : List String) (oc : Except ExecError Unit)
    (ca dm : Nat) (mode : String) (t : Task) :
    (attemptBody chunks oc ca dm mode t).title = t.title := by
  cases oc <;> rfl

/-- An attempt leaves the saved original prompt unchanged. -/
lemma attemptBody_origPrompt (chunks : List String) (oc : Except ExecError Unit)
    (ca dm : Nat) (mode : String) (t : Task) :
    (attemptBody chunks oc ca dm mode t).origPrompt = t.origPrompt := by
  cases oc <;> rfl

/-- An attempt stores a result record on every path. -/
lemma attemptBody_result_isSome (chunks : List String) (oc : Except ExecError Unit)
    (ca dm : Nat) (mode : String) (t : Task) :
    (attemptBody chunks oc ca dm mode t).result.isSome = true := by
  cases oc <;> rfl

/-- A pattern is a prefix of itself followed by anything. -/
lemma hasPrefixChars_append (pat post : List Char) :
    hasPrefixChars (pat ++ post) pat = true := by
  induction pat with
  | nil => cases post <;> rfl
  | cons a as ih => simp [hasPrefixChars, ih]

/-- Containment holds when the pattern is a prefix. -/
lemma containsChars_of_hasPrefixChars {l pat : List Char}
    (h : hasPrefixChars l pat = true) : containsChars l pat = true := by
  cases l with
  | nil => exact h
  | cons c rest => simp [containsChars, h]

/-- Containment holds for any explicit occurrence of the pattern. -/
lemma containsChars_append (pre pat post : List Char) :
    containsChars (pre ++ pat ++ post) pat = true := by
  induction pre with
  | nil =>
    apply containsChars_of_hasPrefixChars
    simpa using hasPrefixChars_append pat post
  | cons c pre ih =>
    have ih' : containsChars (pre ++ (pat ++ post)) pat = true := by
      simpa [List.append_assoc] using ih
    simp [containsChars, ih']

/-- JS includes accepts any string that contains the pattern. -/
lemma jsIncludes_append (pre pat post : String) :
    jsIncludes (pre ++ pat ++ post) pat = true := by
  unfold jsIncludes
  have : (pre ++ pat ++ post).toList = pre.toList ++ pat.toList ++ post.toList := rfl
  rw [this]
  exact containsChars_append pre.toList pat.toList post.toList

/-! ### Claim theorems -/

/-- Claim C1: in batch (prompt) mode the result record stored by the
close handler has exitCode equal to the process exit code, hence 0
exactly when the process exited with code 0; the execute promise
resolves exactly when the code is 0 and otherwise rejects with the
exit-code failure; and the output accumulated before exit is carried on
the failure record, in the TaskExecutor and the CopilotAgent adapter
alike. -/
theorem batch_exit_code_iff (accumulated : String) (durationMs : Nat) (code : Int) :
    ((promptClose accumulated durationMs code).1.exitCode = 0 ↔ code = 0) ∧
    ((promptClose accumulated durationMs code).2 = Except.ok () ↔ code = 0) ∧
    ((promptClose accumulated durationMs code).2 = Except.error (exitMessage code) ↔
      code ≠ 0) ∧
    (promptClose accumulated durationMs code).1.output = accumulated ∧
    ((agentPromptClose accumulated durationMs code).1.exitCode = 0 ↔ code = 0) ∧
    ((agentPromptClose accumulated durationMs code).2 = Except.ok () ↔ code = 0) ∧
    (agentPromptClose accumulated durationMs code).1.output = accumulated := by
  unfold promptClose agentPromptClose
  by_cases h : code = 0 <;> simp [h]

/-- Claim C2 counterexample: with the default configuration (mode
resolves to "acp", fallback enabled), an application-level failure — the
backend reporting a task error with an empty message, which the client
rejects as "ACP error" — triggers a fallback attempt in
TaskExecutor.execute, because the decision tests only whether the thrown
message contains the substring "ACP"; fallback is therefore not
restricted to protocol-layer failures. -/
theorem fallback_on_application_error :
    (serverErrorReject none).layer = ErrorLayer.applicationLayer ∧
    executorShouldFallback (resolvedMode none) (resolvedFallback none)
      (serverErrorReject none) = true ∧
    (executeWithFallback executorShouldFallback (resolvedMode none)
      (resolvedFallback none) (Except.error (serverErrorReject none))
      (Except.ok ())).2 = 1 := by
  refine ⟨rfl, by decide, by decide⟩

/-- Claim C2 amended: fallback is attempted at most once per task and
never after a successful primary attempt; in the TaskExecutor it is
attempted, after a failed primary attempt, exactly when the configured
mode was "acp", fallback is enabled and the error message contains the
substring "ACP" — the protocol-versus-application layer of the failure
is not consulted — and in the CopilotAgent exactly when the mode was
"acp" and fallback is enabled, whatever the error. -/
theorem fallback_condition_characterization :
    (∀ pol mode fb p b, (executeWithFallback pol mode fb p b).2 ≤ 1) ∧
    (∀ mode fb b,
      executeWithFallback executorShouldFallback mode fb (Except.ok ()) b =
        (Except.ok (), 0)) ∧
    (∀ mode fb e b,
      ((executeWithFallback executorShouldFallback mode fb (Except.error e) b).2 = 1 ↔
        (mode = "acp" ∧ fb = true ∧ jsIncludes e.message "ACP" = true))) ∧
    (∀ mode fb e b,
      ((executeWithFallback agentShouldFallback mode fb (Except.error e) b).2 = 1 ↔
        (mode = "acp" ∧ fb = true))) := by
  refine ⟨?_, ?_, ?_, ?_⟩
  · intro pol mode fb p b
    cases p with
    | ok u => simp [executeWithFallback]
    | error e =>
      by_cases hp : pol mode fb e = true
      · cases b <;> simp [executeWithFallback, hp]
      · simp [executeWithFallback, hp]
  · intro mode fb b
    rfl
  · intro mode fb e b
    have h2 : (executeWithFallback executorShouldFallback mode fb
        (Except.error e) b).2 = 1 ↔ executorShouldFallback mode fb e = true := by
      by_cases hp : executorShouldFallback mode fb e = true
      · cases b <;> simp [executeWithFallback, hp]
      · simp [executeWithFallback, hp]
    rw [h2]
    simp [executorShouldFallback, Bool.and_eq_true, beq_iff_eq, and_assoc]
  · intro mode fb e b
    have h2 : (executeWithFallback agentShouldFallback mode fb
        (Except.error e) b).2 = 1 ↔ agentShouldFallback mode fb e = true := by
      by_cases hp : agentShouldFallback mode fb e = true
      · cases b <;> simp [executeWithFallback, hp]
      · simp [executeWithFallback, hp]
    rw [h2]
    simp [agentShouldFallback, Bool.and_eq_true, beq_iff_eq]

/-- Witness for the amended C2 statement at concrete inputs. -/
theorem fallback_condition_characterization_witness :
    (executeWithFallback executorShouldFallback "acp" true
      (Except.error { message := "ACP handshake failed",
                      layer := ErrorLayer.protocolLayer })
      (Except.ok ())).2 = 1 :=
  (fallback_condition_characterization.2.2.1 "acp" true
    { message := "ACP handshake failed", layer := ErrorLayer.protocolLayer }
    (Except.ok ())).mpr ⟨rfl, rfl, by decide⟩

/-- Claim C3: over any event trace on one client from the initial state,
every issued id is settled at most once — by its matching response or by
timeout expiry, never both; every settlement delivers to exactly the
caller that issued the matching id (an acceptance with the same id and
caller occurred, and at most one caller is accepted per id); a response
whose id is no longer pending is discarded without error and without
touching the state; and once every accepted id has been settled the
pending map is empty. -/
theorem pending_request_exactly_once (tr : List Event) :
    (∀ id, ((run initState tr).2.countP (removesId id)) ≤ 1) ∧
    (∀ id c, (Delivery.resolvedD id c ∈ (run initState tr).2 ∨
              Delivery.rejectedD id c ∈ (run initState tr).2 ∨
              Delivery.timedOutD id c ∈ (run initState tr).2) →
        Delivery.accepted id c ∈ (run initState tr).2) ∧
    (∀ id c c', Delivery.accepted id c ∈ (run initState tr).2 →
        Delivery.accepted id c' ∈ (run initState tr).2 → c = c') ∧
    (∀ s id isErr, lookupPending id s.pending = none →
        step s (Event.response id isErr) = (s, Delivery.discardedD)) ∧
    ((∀ id c, Delivery.accepted id c ∈ (run initState tr).2 →
        (run initState tr).2.countP (removesId id) = 1) →
      (run initState tr).1.pending = []) := by
  have hinv := inv_run tr
  refine ⟨hinv.removesLeOne, hinv.removedAccepted, hinv.acceptedUnique, ?_, ?_⟩
  · intro s id isErr hl
    by_cases h0 : id ≠ 0 <;> simp [step, h0, hl]
  · intro hall
    cases hp : (run initState tr).1.pending with
    | nil => rfl
    | cons p rest =>
      have hpmem : p ∈ (run initState tr).1.pending := by
        rw [hp]; exact List.mem_cons_self p rest
      have hacc := hinv.pendingAccepted p hpmem
      have hzero := hinv.pendingNotRemoved p.1
        (List.mem_map_of_mem Prod.fst hpmem)
      have hone := hall p.1 p.2 hacc
      omega

/-- Witness for C3 at concrete inputs: a late response for an id that is
not pending is discarded and leaves the state unchanged. -/
theorem pending_request_exactly_once_witness :
    step { requestId := 3, pending := [(2, 9)], timers := [2] }
      (Event.response 1 false) =
      ({ requestId := 3, pending := [(2, 9)], timers := [2] }, Delivery.discardedD) :=
  (pending_request_exactly_once []).2.2.2.1
    { requestId := 3, pending := [(2, 9)], timers := [2] } 1 false (by decide)

/-- Claim C5: the per-request timeout constant is 60000 ms; a request
issued at t0 with no response is pending exactly at the instants before
t0 + 60000 and its timer fires at t0 + 60000, neither earlier nor later;
and when the timer fires for a still-pending id, the caller is rejected
by timeout and the id is removed from the pending map (abandoned). -/
theorem request_timeout_window (t0 : Nat) :
    REQUEST_TIMEOUT_MS = 60000 ∧
    (issueRequest t0).timerAt = t0 + 60000 ∧
    (∀ t, pendingAt (issueRequest t0) t = true ↔ t < t0 + 60000) ∧
    (∀ s id c, lookupPending id s.pending = some c →
      (step s (Event.timerFire id)).2 = Delivery.timedOutD id c ∧
      id ∉ pendingKeys (step s (Event.timerFire id)).1.pending) := by
  refine ⟨rfl, rfl, ?_, ?_⟩
  · intro t
    simp [pendingAt, issueRequest, REQUEST_TIMEOUT_MS]
  · intro s id c hl
    constructor
    · simp [step, hl]
    · simp only [step, hl]
      exact not_mem_keys_removePending

/-- Witness for C5 at concrete inputs: the timer firing for pending id 1
rejects caller 5 by timeout. -/
theorem request_timeout_window_witness :
    (step { requestId := 1, pending := [(1, 5)], timers := [1] }
        (Event.timerFire 1)).2 = Delivery.timedOutD 1 5 :=
  ((request_timeout_window 0).2.2.2
    { requestId := 1, pending := [(1, 5)], timers := [1] } 1 5 (by decide)).1

/-- Claim C6 counterexample: after a request and its matching response,
the request has been settled (the pending map is empty) yet the
60-second timer for id 1 is still scheduled — _request never stores the
setTimeout handle and _handleMessage never calls clearTimeout, so the
timer is not cancelled on resolution; it fires later against the guard. -/
theorem timer_not_cancelled :
    (run initState [Event.request 7, Event.response 1 false]).2 =
      [Delivery.accepted 1 7, Delivery.resolvedD 1 7] ∧
    (run initState [Event.request 7, Event.response 1 false]).1.pending = [] ∧
    (run initState [Event.request 7, Event.response 1 false]).1.timers = [1] := by
  decide

/-- Claim C6 amended: the timer is not cancelled when a matching response
settles a request — the timer list is untouched by responses — but the
timer path and the completion path are mutually exclusive through the
pending-membership guard: over any trace each id is settled at most
once, a timer firing after its request has settled leaves the pending
map untouched and delivers nothing, and a response after settlement is
discarded, so no request is ever double-resolved. -/
theorem timer_completion_mutually_exclusive (tr : List Event) :
    (∀ id, ((run initState tr).2.countP (removesId id)) ≤ 1) ∧
    (∀ s id isErr, (step s (Event.response id isErr)).1.timers = s.timers) ∧
    (∀ s id, lookupPending id s.pending = none →
      (step s (Event.timerFire id)).1.pending = s.pending ∧
      (step s (Event.timerFire id)).2 = Delivery.timerNoopD) ∧
    (∀ s id isErr, lookupPending id s.pending = none →
      (step s (Event.response id isErr)).2 = Delivery.discardedD) := by
  have hinv := inv_run tr
  refine ⟨hinv.removesLeOne, ?_, ?_, ?_⟩
  · intro s id isErr
    by_cases h0 : id ≠ 0
    · cases hl : lookupPending id s.pending with
      | some c => simp [step, h0, hl]
      | none => simp [step, h0, hl]
    · simp [step, h0]
  · intro s id hl
    constructor <;> simp [step, hl]
  · intro s id isErr hl
    by_cases h0 : id ≠ 0 <;> simp [step, h0, hl]

/-- Witness for the amended C6 statement at concrete inputs: settling
id 1 by response leaves its timer scheduled. -/
theorem timer_completion_mutually_exclusive_witness :
    (step { requestId := 1, pending := [(1, 7)], timers := [1] }
        (Event.response 1 false)).1.timers = [1] :=
  (timer_completion_mutually_exclusive []).2.1
    { requestId := 1, pending := [(1, 7)], timers := [1] } 1 false

/-- Claim C7: the interactive permission wait is 30000 ms; with no
response by then the decision resolves to the configured default —
approved when allowAllTools is set, cancelled otherwise — at the
30000 ms instant with the timer having fired; and a response arriving in
time clears the timer and returns the handler decision. -/
theorem permission_wait_default (allowAll : Bool) :
    PERMISSION_WAIT_MS = 30000 ∧
    serverPermissionWait allowAll none =
      ((if allowAll then Outcome.approved else Outcome.cancelled), false, 30000) ∧
    (∀ t approved, t < 30000 →
      serverPermissionWait allowAll (some (t, approved)) =
        ((if approved then Outcome.approved else Outcome.cancelled), true, t)) := by
  refine ⟨rfl, rfl, ?_⟩
  intro t approved ht
  simp [serverPermissionWait, PERMISSION_WAIT_MS, ht]

/-- Witness for C7 at concrete inputs. -/
theorem permission_wait_default_witness :
    serverPermissionWait false (some (12, true)) =
      ((if true then Outcome.approved else Outcome.cancelled), true, 12) :=
  (permission_wait_default false).2.2 12 true (by decide)

/-- Claim C8 counterexample: stopping a client with a live process
performs only stdin end, SIGTERM and the bounded 2000 ms wait for exit —
no forced termination follows the grace period, so the claim that stop
forces termination after the 2-second grace is false of the code. -/
theorem stop_no_forced_termination :
    (acpStop { hasProcess := true, sessionId := some "live" }).2 =
      [StopAction.stdinEnd, StopAction.sigterm, StopAction.awaitExitBounded 2000] ∧
    StopAction.forceKill ∉ (acpStop { hasProcess := true, sessionId := some "live" }).2 := by
  decide

/-- Claim C8 amended: stop is idempotent on the ACP client, the
TaskExecutor and the CopilotAgent adapter — a second call in succession
changes nothing, performs no action and emits no duplicate terminal
event — and is safe when nothing was started; one executor stop emits at
most one cancelled event; and a client stop with a live process ends
stdin and requests graceful termination with its wait for exit bounded
by the 2000 ms grace timer, after which it only clears its own state —
it never forces termination. -/
theorem stop_idempotent :
    (∀ s, acpStop (acpStop s).1 = ((acpStop s).1, [])) ∧
    (∀ s, s.hasProcess = false → acpStop s = (s, [])) ∧
    (∀ s, s.hasProcess = true →
      (acpStop s).2 = [StopAction.stdinEnd, StopAction.sigterm,
        StopAction.awaitExitBounded 2000]) ∧
    (∀ s, StopAction.forceKill ∉ (acpStop s).2) ∧
    (∀ d1 d2 s, executorStop d2 (executorStop d1 s).1 = ((executorStop d1 s).1, [])) ∧
    (∀ d s, (executorStop d s).2.length ≤ 1) ∧
    (∀ d, executorStop d
        { hasAcpClient := false, hasProcess := false, currentTask := none } =
      ({ hasAcpClient := false, hasProcess := false, currentTask := none }, [])) ∧
    (∀ s, agentStop (agentStop s) = agentStop s) := by
  refine ⟨?_, ?_, ?_, ?_, ?_, ?_, ?_, ?_⟩
  · intro s
    by_cases h : s.hasProcess = true <;> simp [acpStop, h]
  · intro s h
    simp [acpStop, h]
  · intro s h
    simp [acpStop, h]
  · intro s
    by_cases h : s.hasProcess = true <;> simp [acpStop, h]
  · intro d1 d2 s
    cases hc : s.currentTask <;> simp [executorStop, hc]
  · intro d s
    cases hc : s.currentTask <;> simp [executorStop, hc]
  · intro d
    rfl
  · intro s
    rfl

/-- Witness for C8 at concrete inputs: stopping a live client performs
the graceful shutdown sequence with the 2000 ms grace bound. -/
theorem stop_idempotent_witness :
    (acpStop { hasProcess := true, sessionId := some "s1" }).2 =
      [StopAction.stdinEnd, StopAction.sigterm, StopAction.awaitExitBounded 2000] :=
  stop_idempotent.2.2.1 { hasProcess := true, sessionId := some "s1" } rfl

/-- Claim C4: the permission policy is evaluated in order with first
match winning — allow-all approves; an allow-pattern match approves; a
deny-pattern match denies; a learned auto-approval approves; otherwise
the interactive handler decides — and in the scenario configuration
shell(git) status is approved and shell(rm) -rf is cancelled without
invoking the handler, while shell(curl) is delegated to it. -/
theorem permission_policy_first_match :
    (∀ perms mem hf tool, perms.allowAllTools = true →
      permissionDecision perms mem hf tool = (Outcome.approved, false)) ∧
    (∀ perms mem hf tool, perms.allowAllTools = false →
      perms.allowTools.any (fun pat => jsIncludes tool pat) = true →
      permissionDecision perms mem hf tool = (Outcome.approved, false)) ∧
    (∀ perms mem hf tool, perms.allowAllTools = false →
      perms.allowTools.any (fun pat => jsIncludes tool pat) = false →
      perms.denyTools.any (fun pat => jsIncludes tool pat) = true →
      permissionDecision perms mem hf tool = (Outcome.cancelled, false)) ∧
    (∀ perms f hf tool, perms.allowAllTools = false →
      perms.allowTools.any (fun pat => jsIncludes tool pat) = false →
      perms.denyTools.any (fun pat => jsIncludes tool pat) = false →
      f tool = true →
      permissionDecision perms (some f) hf tool = (Outcome.approved, false)) ∧
    (∀ perms mem hf tool, perms.allowAllTools = false →
      perms.allowTools.any (fun pat => jsIncludes tool pat) = false →
      perms.denyTools.any (fun pat => jsIncludes tool pat) = false →
      (match mem with | some f => f tool | none => false) = false →
      permissionDecision perms mem (some hf) tool = (hf tool, true)) ∧
    (∀ hf, permissionDecision scenarioPerms none (some hf) "shell(git) status" =
      (Outcome.approved, false)) ∧
    (∀ hf, permissionDecision scenarioPerms none (some hf) "shell(rm) -rf" =
      (Outcome.cancelled, false)) ∧
    (∀ hf, permissionDecision scenarioPerms none (some hf) "shell(curl)" =
      (hf "shell(curl)", true)) := by
  refine ⟨?_, ?_, ?_, ?_, ?_, ?_, ?_, ?_⟩
  · intro perms mem hf tool hall
    simp [permissionDecision, hall]
  · intro perms mem hf tool hall hany
    simp [permissionDecision, hall, hany]
  · intro perms mem hf tool hall hany hdeny
    simp [permissionDecision, hall, hany, hdeny]
  · intro perms f hf tool hall hany hdeny hmem
    simp [permissionDecision, hall, hany, hdeny, hmem]
  · intro perms mem hf tool hall hany hdeny hmem
    simp [permissionDecision, hall, hany, hdeny, hmem]
  · intro hf
    rfl
  · intro hf
    rfl
  · intro hf
    rfl

/-- Witness for C4 at concrete inputs. -/
theorem permission_policy_first_match_witness :
    permissionDecision scenarioPerms none (some (fun _ => Outcome.approved))
      "shell(git) status" = (Outcome.approved, false) :=
  permission_policy_first_match.2.2.2.2.2.1 (fun _ => Outcome.approved)

/-- Claim C9: the four caller-facing task fields — prompt, workingDir,
type and title — are unchanged when execute returns, for any memory
context, attempt outcomes and fallback: the prompt is restored from
_originalPrompt in the finally block after memory-context injection, and
every attempt stores a result, so the restore is reached; and
_buildPromptArgs leaves the configuration object exactly as received. -/
theorem task_fields_unchanged (mem : Option String)
    (chunks chunks2 : List String) (oc oc2 : Except ExecError Unit)
    (ca ca2 dm dm2 sa : Nat) (mode mode2 : String) (fb : Bool) (t : Task)
    (h : t.origPrompt = none) :
    ((executeTaskFull mem chunks chunks2 oc oc2 ca ca2 dm dm2 sa
        mode mode2 fb t).prompt = t.prompt ∧
     (executeTaskFull mem chunks chunks2 oc oc2 ca ca2 dm dm2 sa
        mode mode2 fb t).workingDir = t.workingDir ∧
     (executeTaskFull mem chunks chunks2 oc oc2 ca ca2 dm dm2 sa
        mode mode2 fb t).taskType = t.taskType ∧
     (executeTaskFull mem chunks chunks2 oc oc2 ca ca2 dm dm2 sa
        mode mode2 fb t).title = t.title) ∧
    (∀ cfg t2, (buildPromptArgs cfg t2).2 = cfg) := by
  constructor
  · cases mem with
    | none =>
      cases fb <;>
        simp [executeTaskFull, executeTask, attemptBody_prompt,
          attemptBody_workingDir, attemptBody_taskType, attemptBody_title]
    | some ctx =>
      by_cases hc : ctx = "" <;>
        cases fb <;>
          simp [executeTaskFull, executeTask, hc, attemptBody_prompt,
            attemptBody_workingDir, attemptBody_taskType, attemptBody_title,
            attemptBody_origPrompt, attemptBody_result_isSome, h]
  · intro cfg t2
    rfl

/-- Witness for C9 at concrete inputs. -/
theorem task_fields_unchanged_witness :
    (executeTaskFull (some "extra context") ["chunk one"] ["chunk two"]
        (Except.ok ()) (Except.ok ()) 1 2 3 4 5 "acp" "prompt" true
        { prompt := "do it" }).prompt = ({ prompt := "do it" } : Task).prompt :=
  (task_fields_unchanged (some "extra context") ["chunk one"] ["chunk two"]
    (Except.ok ()) (Except.ok ()) 1 2 3 4 5 "acp" "prompt" true
    { prompt := "do it" } rfl).1.1

/-- Claim C10: allow-list and deny-list matching is substring containment
— any tool name containing a configured allow pattern matches, even when
it differs from the pattern — and the allow list is checked before the
deny list, so a tool name containing both an allow and a deny pattern is
approved without the handler. -/
theorem allow_before_deny_substring :
    (∀ perms mem hf tool pat, perms.allowAllTools = false →
      pat ∈ perms.allowTools → jsIncludes tool pat = true →
      permissionDecision perms mem hf tool = (Outcome.approved, false)) ∧
    (∀ pre pat post : String, jsIncludes (pre ++ pat ++ post) pat = true) ∧
    (jsIncludes "shell(git) status" "shell(git)" = true ∧
      "shell(git) status" ≠ "shell(git)") ∧
    (∀ mem hf, permissionDecision overlapPerms mem hf "shell(rm -rf /tmp)" =
      (Outcome.approved, false)) := by
  refine ⟨?_, jsIncludes_append, ⟨by decide, by decide⟩, ?_⟩
  · intro perms mem hf tool pat hall hmem hji
    have hany : perms.allowTools.any (fun q => jsIncludes tool q) = true :=
      List.any_eq_true.mpr ⟨pat, hmem, hji⟩
    simp [permissionDecision, hall, hany]
  · intro mem hf
    have hji : jsIncludes "shell(rm -rf /tmp)" "rm" = true := by decide
    simp [permissionDecision, overlapPerms, hji]

/-- Witness for C10 at concrete inputs. -/
theorem allow_before_deny_substring_witness :
    permissionDecision overlapPerms none none "shell(rm -rf /tmp)" =
      (Outcome.approved, false) :=
  allow_before_deny_substring.2.2.2 none none

end Talos
